import Mathlib

/-!
Verification development for the Marketing Intelligence Dashboard data
pipeline (`app.py`).  The pipeline stages embedded here are:

* column-name normalization (app.py lines 23-27),
* consolidation and per-date aggregation of the marketing tables
  (lines 30-39),
* the left join of the daily marketing aggregate onto the business table
  followed by the frame-wide `fillna(0)` (line 41),
* metric derivation (the five ratio columns, lines 44-49) followed by the
  frame-wide infinity replacement and `fillna(0)` (lines 50-51),
* sidebar filtering of the unified marketing table and of the joined
  table (lines 76-84).

Numeric cells are modelled by `PVal`, an exact-rational carrier extended
with the IEEE special values `+inf`, `-inf` and `NaN`.  Rounding is not
modelled (the claims under study concern formula structure and
special-value propagation, not rounding error); the special-value rules of
`padd`, `pmul` and `pdiv` follow IEEE-754 semantics as implemented by
numpy/pandas, except that signed zero is not modelled (a finite value
divided by an infinity yields plain `0`).
-/

/-- A pandas numeric cell: a finite rational, an infinity, or NaN. -/
inductive PVal where
  | fin (q : ℚ)
  | posInf
  | negInf
  | nan
  deriving DecidableEq, Repr

namespace PVal

/-- True on NaN only. -/
def isNan : PVal → Bool
  | .nan => true
  | _ => false

/-- True on finite values only. -/
def isFinite : PVal → Bool
  | .fin _ => true
  | _ => false

end PVal

/-- Addition with IEEE special-value rules: NaN absorbs, opposite
infinities give NaN, an infinity absorbs finite values. -/
def padd : PVal → PVal → PVal
  | .nan, _ => .nan
  | _, .nan => .nan
  | .posInf, .negInf => .nan
  | .negInf, .posInf => .nan
  | .posInf, _ => .posInf
  | _, .posInf => .posInf
  | .negInf, _ => .negInf
  | _, .negInf => .negInf
  | .fin a, .fin b => .fin (a + b)

/-- Multiplication with IEEE special-value rules: NaN absorbs,
infinity times zero gives NaN, otherwise signs combine. -/
def pmul : PVal → PVal → PVal
  | .nan, _ => .nan
  | _, .nan => .nan
  | .posInf, .posInf => .posInf
  | .posInf, .negInf => .negInf
  | .negInf, .posInf => .negInf
  | .negInf, .negInf => .posInf
  | .posInf, .fin b => if b = 0 then .nan else if b < 0 then .negInf else .posInf
  | .negInf, .fin b => if b = 0 then .nan else if b < 0 then .posInf else .negInf
  | .fin a, .posInf => if a = 0 then .nan else if a < 0 then .negInf else .posInf
  | .fin a, .negInf => if a = 0 then .nan else if a < 0 then .posInf else .negInf
  | .fin a, .fin b => .fin (a * b)

/-- Division with IEEE special-value rules: NaN absorbs, inf/inf is NaN,
finite/inf is 0 (signed zero not modelled), 0/0 is NaN, a nonzero finite
numerator over zero gives a signed infinity. -/
def pdiv : PVal → PVal → PVal
  | .nan, _ => .nan
  | _, .nan => .nan
  | .posInf, .posInf => .nan
  | .posInf, .negInf => .nan
  | .negInf, .posInf => .nan
  | .negInf, .negInf => .nan
  | .posInf, .fin b => if b < 0 then .negInf else .posInf
  | .negInf, .fin b => if b < 0 then .posInf else .negInf
  | .fin _, .posInf => .fin 0
  | .fin _, .negInf => .fin 0
  | .fin a, .fin b =>
      if b = 0 then (if a = 0 then .nan else if a < 0 then .negInf else .posInf)
      else .fin (a / b)

/-- One normalized row of a channel marketing file, after the platform tag
has been attached (app.py lines 30-33).  Dates are day numbers (the
pipeline calls `pd.to_datetime` and compares dates only). -/
structure MRow where
  date : ℤ
  platform : String
  state : String
  tactic : String
  campaign : String
  spend : PVal
  impressions : PVal
  clicks : PVal
  attributed_revenue : PVal
  deriving DecidableEq, Repr

/-- One row of the business file after column normalization. -/
structure BRow where
  date : ℤ
  total_revenue : PVal
  gross_profit : PVal
  new_customers : PVal
  deriving DecidableEq, Repr

/-- One row of the merged frame `pd.merge(business, daily_marketing,
on='date', how='left')` (app.py line 41), before the ratio columns are
created. -/
structure JRow0 where
  date : ℤ
  total_revenue : PVal
  gross_profit : PVal
  new_customers : PVal
  spend : PVal
  impressions : PVal
  clicks : PVal
  attributed_revenue : PVal
  deriving DecidableEq, Repr

/-- One row of the joined frame once the five ratio columns exist
(app.py lines 44-49). -/
structure JRow where
  date : ℤ
  total_revenue : PVal
  gross_profit : PVal
  new_customers : PVal
  spend : PVal
  impressions : PVal
  clicks : PVal
  attributed_revenue : PVal
  roas : PVal
  mer : PVal
  cpc : PVal
  ctr : PVal
  cac : PVal
  deriving DecidableEq, Repr

/-- Pandas `Series.sum()` over a group: NaN cells are skipped
(`skipna=True` is the pandas default), the remaining cells are added with
IEEE rules, and an empty group sums to 0. -/
def gsum (l : List PVal) : PVal :=
  (l.filter (fun v => !v.isNan)).foldl padd (.fin 0)

/-- One row of `daily_marketing`, the per-date aggregate of the unified
marketing table (app.py lines 37-39). -/
structure DMRow where
  date : ℤ
  spend : PVal
  impressions : PVal
  clicks : PVal
  attributed_revenue : PVal
  deriving DecidableEq, Repr

/-- `marketing_data.groupby('date').agg(sum of spend, impressions,
clicks, attributed_revenue)` (app.py lines 37-39): one output row per
distinct date of the input, each measure summed over the rows sharing
that date.  (Pandas emits the group keys in sorted order; this embedding
keeps first-occurrence order, which is immaterial to the keyed left
merge that consumes the table.) -/
def dmRowAt (m : List MRow) (d : ℤ) : DMRow :=
  let g := m.filter (fun r => r.date = d)
  { date := d
    spend := gsum (g.map (fun r => r.spend))
    impressions := gsum (g.map (fun r => r.impressions))
    clicks := gsum (g.map (fun r => r.clicks))
    attributed_revenue := gsum (g.map (fun r => r.attributed_revenue)) }

/-- The full `groupby` table: one `dmRowAt` row per distinct date. -/
def dailyMarketing (m : List MRow) : List DMRow :=
  ((m.map (fun r => r.date)).dedup).map (dmRowAt m)

/-- `pd.merge(business, daily, on='date', how='left')`: every business row
is emitted once per matching right-hand row, or once with NaN marketing
measures when no right-hand row matches; output order follows the
business table. -/
def mergeLeft (business : List BRow) (daily : List DMRow) : List JRow0 :=
  business.flatMap (fun b =>
    match daily.filter (fun r => r.date = b.date) with
    | [] => [{ date := b.date, total_revenue := b.total_revenue,
               gross_profit := b.gross_profit, new_customers := b.new_customers,
               spend := .nan, impressions := .nan, clicks := .nan,
               attributed_revenue := .nan }]
    | ms => ms.map (fun r =>
        { date := b.date, total_revenue := b.total_revenue,
          gross_profit := b.gross_profit, new_customers := b.new_customers,
          spend := r.spend, impressions := r.impressions, clicks := r.clicks,
          attributed_revenue := r.attributed_revenue }))

/-- `fillna(0)` on one cell: NaN becomes 0, everything else (infinities
included) is kept. -/
def fillnaVal : PVal → PVal
  | .nan => .fin 0
  | v => v

/-- The frame-wide `.fillna(0)` of app.py line 41, applied to every column
of a merged row. -/
def fillnaRow (r : JRow0) : JRow0 :=
  { date := r.date
    total_revenue := fillnaVal r.total_revenue
    gross_profit := fillnaVal r.gross_profit
    new_customers := fillnaVal r.new_customers
    spend := fillnaVal r.spend
    impressions := fillnaVal r.impressions
    clicks := fillnaVal r.clicks
    attributed_revenue := fillnaVal r.attributed_revenue }

/-- App.py line 41: merge the daily marketing aggregate onto the business
table with a left join, then zero-fill the missing cells. -/
def joinStage (business : List BRow) (m : List MRow) : List JRow0 :=
  (mergeLeft business (dailyMarketing m)).map fillnaRow

/-- The ε of app.py line 44: `epsilon = 1e-9`, exact. -/
def epsilon : ℚ := 1 / 1000000000

/-- Attach the five ratio columns of app.py lines 45-49 to a merged row,
exactly as written there (before the coercion pass of lines 50-51):
`roas = attributed_revenue / (spend + eps)`,
`mer = total_revenue / (spend + eps)`,
`cpc = spend / (clicks + eps)`,
`ctr = (clicks / (impressions + eps)) * 100`,
`cac = spend / (new_customers + eps)`. -/
def deriveRow (r : JRow) : JRow :=
  { r with
    roas := pdiv r.attributed_revenue (padd r.spend (.fin epsilon))
    mer := pdiv r.total_revenue (padd r.spend (.fin epsilon))
    cpc := pdiv r.spend (padd r.clicks (.fin epsilon))
    ctr := pmul (pdiv r.clicks (padd r.impressions (.fin epsilon))) (.fin 100)
    cac := pdiv r.spend (padd r.new_customers (.fin epsilon)) }

/-- The combined coercion pass of app.py lines 50-51 on one cell:
`replace([inf, -inf], 0)` then `fillna(0)` — both infinities and NaN
become 0, finite values are kept. -/
def coerceVal : PVal → PVal
  | .posInf => .fin 0
  | .negInf => .fin 0
  | .nan => .fin 0
  | v => v

/-- The frame-wide coercion pass of app.py lines 50-51, applied to every
column of the joined frame (business columns and ratio columns alike). -/
def coerceRow (r : JRow) : JRow :=
  { date := r.date
    total_revenue := coerceVal r.total_revenue
    gross_profit := coerceVal r.gross_profit
    new_customers := coerceVal r.new_customers
    spend := coerceVal r.spend
    impressions := coerceVal r.impressions
    clicks := coerceVal r.clicks
    attributed_revenue := coerceVal r.attributed_revenue
    roas := coerceVal r.roas
    mer := coerceVal r.mer
    cpc := coerceVal r.cpc
    ctr := coerceVal r.ctr
    cac := coerceVal r.cac }

/-- The metric-derivation stage (app.py lines 44-51): compute the five
ratio columns for every row, then run the frame-wide infinity/NaN
coercion pass.  Re-running the stage overwrites the ratio columns, so it
is typed on full joined rows. -/
def deriveStage (t : List JRow) : List JRow :=
  (t.map deriveRow).map coerceRow

/-- View a merged row as a joined row whose ratio columns do not exist
yet; the derivation stage overwrites them unconditionally, so they are
initialized arbitrarily to 0. -/
def toJRow (r : JRow0) : JRow :=
  { date := r.date
    total_revenue := r.total_revenue
    gross_profit := r.gross_profit
    new_customers := r.new_customers
    spend := r.spend
    impressions := r.impressions
    clicks := r.clicks
    attributed_revenue := r.attributed_revenue
    roas := .fin 0, mer := .fin 0, cpc := .fin 0, ctr := .fin 0, cac := .fin 0 }

/-- The whole preparation pipeline from the normalized tables to the
joined frame returned by `load_data` (app.py lines 37-53): aggregate,
left-join, zero-fill, derive, coerce. -/
def prepare (business : List BRow) (m : List MRow) : List JRow :=
  deriveStage ((joinStage business m).map toJRow)

/-- The row predicate of `mask_marketing` (app.py lines 77-82): the date
lies in the inclusive range and platform, state and tactic each belong to
the selected lists. -/
def maskMarketing (sd ed : ℤ) (plats sts tacs : List String) (r : MRow) : Bool :=
  (sd ≤ r.date) && (r.date ≤ ed) && (plats.contains r.platform) &&
    (sts.contains r.state) && (tacs.contains r.tactic)

/-- `filtered_marketing = marketing_data_raw[mask_marketing]`
(app.py line 83). -/
def filteredMarketing (sd ed : ℤ) (plats sts tacs : List String)
    (m : List MRow) : List MRow :=
  m.filter (maskMarketing sd ed plats sts tacs)

/-- `filtered_df = df[(df.date >= start) & (df.date <= end)]`
(app.py line 84): the joined table is restricted by date only. -/
def filteredJoined (sd ed : ℤ) (t : List JRow) : List JRow :=
  t.filter (fun r => (sd ≤ r.date) && (r.date ≤ ed))

/-- App.py line 24 on one column name:
`str.lower().str.replace(' ', '_')` — lowercase the name, then replace
every space with an underscore.  Both operations act character by
character on these ASCII column names, so they are modelled as a single
character map (a space is unaffected by lowercasing). -/
def normalizeName (s : String) : String :=
  ⟨s.data.map (fun c => if c = ' ' then '_' else c.toLower)⟩

/-- The marketing-table column normalization of app.py lines 24-26:
rewrite every name with `normalizeName`, then, when the result has an
`impression` column and no `impressions` column, rename `impression` to
`impressions`.  (No other synonym is folded.) -/
def normalizeColumns (cols : List String) : List String :=
  let lc := cols.map normalizeName
  if "impression" ∈ lc ∧ "impressions" ∉ lc then
    lc.map (fun c => if c = "impression" then "impressions" else c)
  else lc

/-- A raw CSV cell of a numeric column as pandas parses it: a number, a
non-numeric text token, or an empty cell (which parses to NaN). -/
inductive RawCell where
  | num (q : ℚ)
  | text (s : String)
  | empty
  deriving DecidableEq, Repr

/-- Whether a column holds some non-numeric text cell.  Pandas then types
the whole column `object` instead of `float64`. -/
def hasText (l : List RawCell) : Bool :=
  l.any (fun c => match c with | .text _ => true | _ => false)

/-- How a cell enters a float64 column: numbers are finite values, empty
cells are NaN.  (Only meaningful when the column has no text cell.) -/
def parseCell : RawCell → PVal
  | .num q => .fin q
  | .empty => .nan
  | .text _ => .nan

/-- Observable behaviour of the pipeline's numeric aggregation
(`groupby('date').agg('sum')`, app.py lines 37-39, and the sums feeding
the KPIs) on a raw CSV column.  When every cell is numeric or empty the
column is float64 and the sum skips NaN; when some cell is non-numeric
text the column is object-typed and the aggregation/derivation raises a
TypeError (adding or dividing strings), which this embedding renders as
`Except.error` — the value is *not* coerced to 0. -/
def aggRawColumn (l : List RawCell) : Except Unit PVal :=
  if hasText l then .error () else .ok (gsum (l.map parseCell))

/-- The row the left merge produces for a business row `b` when the
right-hand table has at most one row per date: the matching daily
aggregate's measures, or NaN measures when no date matches. -/
def joinRow (daily : List DMRow) (b : BRow) : JRow0 :=
  match daily.filter (fun r => r.date = b.date) with
  | [] => { date := b.date, total_revenue := b.total_revenue,
            gross_profit := b.gross_profit, new_customers := b.new_customers,
            spend := .nan, impressions := .nan, clicks := .nan,
            attributed_revenue := .nan }
  | r :: _ => { date := b.date, total_revenue := b.total_revenue,
                gross_profit := b.gross_profit, new_customers := b.new_customers,
                spend := r.spend, impressions := r.impressions, clicks := r.clicks,
                attributed_revenue := r.attributed_revenue }

theorem filter_date_length_le_one (daily : List DMRow)
    (hnd : (daily.map (fun r => r.date)).Nodup) (d : ℤ) :
    (daily.filter (fun r => r.date = d)).length ≤ 1 := by
  induction daily with
  | nil => simp
  | cons a l ih =>
    simp only [List.map_cons, List.nodup_cons] at hnd
    by_cases h : a.date = d
    · have hnil : l.filter (fun r => r.date = d) = [] := by
        refine List.filter_eq_nil_iff.mpr ?_
        intro r hr hrd
        simp only [decide_eq_true_eq] at hrd
        exact hnd.1 (by rw [← h, ← hrd] at *; exact List.mem_map_of_mem _ hr)
      simp [List.filter_cons, h, hnil]
    · simpa [List.filter_cons, h] using ih hnd.2

theorem mergeLeft_eq_map (business : List BRow) (daily : List DMRow)
    (hnd : (daily.map (fun r => r.date)).Nodup) :
    mergeLeft business daily = business.map (joinRow daily) := by
  induction business with
  | nil => rfl
  | cons b bs ih =>
    have hlen := filter_date_length_le_one daily hnd b.date
    simp only [mergeLeft, List.flatMap_cons, List.map_cons] at *
    cases hfil : daily.filter (fun r => r.date = b.date) with
    | nil => simp [joinRow, hfil, ih]
    | cons r rest =>
      rw [hfil] at hlen
      have hrest : rest = [] := by
        simp only [List.length_cons] at hlen
        exact List.length_eq_zero.mp (by omega)
      subst hrest
      simp [joinRow, hfil, ih]

theorem dailyMarketing_map_date (m : List MRow) :
    (dailyMarketing m).map (fun r => r.date) = (m.map (fun r => r.date)).dedup := by
  unfold dailyMarketing
  rw [List.map_map]
  have h1 : ∀ d ∈ (m.map (fun r => r.date)).dedup,
      ((fun r => r.date) ∘ dmRowAt m) d = id d := fun d _ => rfl
  rw [List.map_congr_left h1, List.map_id]

theorem dailyMarketing_dates_nodup (m : List MRow) :
    ((dailyMarketing m).map (fun r => r.date)).Nodup := by
  rw [dailyMarketing_map_date]
  exact List.nodup_dedup _

theorem dailyMarketing_date_mem (m : List MRow) (r : DMRow)
    (hr : r ∈ dailyMarketing m) : ∃ s ∈ m, s.date = r.date := by
  have : r.date ∈ (dailyMarketing m).map (fun x => x.date) :=
    List.mem_map_of_mem _ hr
  rw [dailyMarketing_map_date] at this
  have := List.dedup_subset _ this
  simpa [eq_comm] using List.mem_map.mp this

theorem joinStage_eq_map (business : List BRow) (m : List MRow) :
    joinStage business m =
      business.map (fun b => fillnaRow (joinRow (dailyMarketing m) b)) := by
  unfold joinStage
  rw [mergeLeft_eq_map business (dailyMarketing m) (dailyMarketing_dates_nodup m)]
  rw [List.map_map]
  rfl

theorem joinRow_date (daily : List DMRow) (b : BRow) :
    (joinRow daily b).date = b.date := by
  unfold joinRow
  cases daily.filter (fun r => r.date = b.date) <;> rfl

/-- Sample business row used by concrete witnesses. -/
def sampleB : BRow :=
  { date := 0, total_revenue := .fin 1000, gross_profit := .fin 200,
    new_customers := .fin 10 }

/-- Sample marketing row used by concrete witnesses (its date does not
match `sampleB`). -/
def sampleM : MRow :=
  { date := 5, platform := "Facebook", state := "NY", tactic := "ASC",
    campaign := "c1", spend := .fin 50, impressions := .fin 1000,
    clicks := .fin 40, attributed_revenue := .fin 100 }

/-- Claim C1: the aggregate-and-join stage keeps every business row
exactly once — its output has the business table's row count and date
column, and a business date with no marketing record gets its four
marketing measures zero-filled; marketing-only dates contribute no
output row. -/
theorem join_preserves_business_rows (business : List BRow) (m : List MRow) :
    (joinStage business m).length = business.length ∧
    (joinStage business m).map (fun r => r.date) =
      business.map (fun r => r.date) ∧
    ∀ b ∈ business, (∀ r ∈ m, r.date ≠ b.date) →
      fillnaRow (joinRow (dailyMarketing m) b) ∈ joinStage business m ∧
      (fillnaRow (joinRow (dailyMarketing m) b)).spend = PVal.fin 0 ∧
      (fillnaRow (joinRow (dailyMarketing m) b)).impressions = PVal.fin 0 ∧
      (fillnaRow (joinRow (dailyMarketing m) b)).clicks = PVal.fin 0 ∧
      (fillnaRow (joinRow (dailyMarketing m) b)).attributed_revenue = PVal.fin 0 := by
  refine ⟨?_, ?_, ?_⟩
  · rw [joinStage_eq_map]
    exact List.length_map _ _
  · rw [joinStage_eq_map, List.map_map]
    have h1 : ∀ b ∈ business,
        ((fun r => r.date) ∘ fun b => fillnaRow (joinRow (dailyMarketing m) b)) b =
          (fun r => r.date) b := by
      intro b _
      show (fillnaRow (joinRow (dailyMarketing m) b)).date = b.date
      show (joinRow (dailyMarketing m) b).date = b.date
      exact joinRow_date _ b
    exact List.map_congr_left h1
  · intro b hb hnone
    have hfil : (dailyMarketing m).filter (fun r => r.date = b.date) = [] := by
      refine List.filter_eq_nil_iff.mpr ?_
      intro r hr hrd
      simp only [decide_eq_true_eq] at hrd
      obtain ⟨s, hs, hsd⟩ := dailyMarketing_date_mem m r hr
      exact hnone s hs (by rw [hsd, hrd])
    refine ⟨?_, ?_⟩
    · rw [joinStage_eq_map]
      exact List.mem_map_of_mem _ hb
    · unfold joinRow
      rw [hfil]
      exact ⟨rfl, rfl, rfl, rfl⟩

theorem join_preserves_business_rows_witness :
    (joinStage [sampleB] [sampleM]).length = 1 ∧
    (fillnaRow (joinRow (dailyMarketing [sampleM]) sampleB)).spend = PVal.fin 0 ∧
    (fillnaRow (joinRow (dailyMarketing [sampleM]) sampleB)).attributed_revenue =
      PVal.fin 0 := by
  have h := join_preserves_business_rows [sampleB] [sampleM]
  have h3 := h.2.2 sampleB (by simp)
    (by intro r hr; rw [List.mem_singleton] at hr; subst hr; decide)
  exact ⟨h.1, h3.2.1, h3.2.2.2.2⟩

theorem coerceVal_isFinite (v : PVal) : (coerceVal v).isFinite = true := by
  cases v <;> rfl

/-- Claim C2: before the coercion pass, metric derivation computes
exactly `roas = attributed_revenue / (spend + eps)`,
`mer = total_revenue / (spend + eps)`, `cpc = spend / (clicks + eps)`,
`ctr = (clicks / (impressions + eps)) * 100` and
`cac = spend / (new_customers + eps)` with `eps = 1e-9`, here stated over
finite cells as exact rational arithmetic. -/
theorem derive_ratio_formulas (r : JRow) (s a tr c i n : ℚ)
    (hs : r.spend = .fin s) (ha : r.attributed_revenue = .fin a)
    (htr : r.total_revenue = .fin tr) (hc : r.clicks = .fin c)
    (hi : r.impressions = .fin i) (hn : r.new_customers = .fin n)
    (hds : s + epsilon ≠ 0) (hdc : c + epsilon ≠ 0)
    (hdi : i + epsilon ≠ 0) (hdn : n + epsilon ≠ 0) :
    (deriveRow r).roas = .fin (a / (s + epsilon)) ∧
    (deriveRow r).mer = .fin (tr / (s + epsilon)) ∧
    (deriveRow r).cpc = .fin (s / (c + epsilon)) ∧
    (deriveRow r).ctr = .fin ((c / (i + epsilon)) * 100) ∧
    (deriveRow r).cac = .fin (s / (n + epsilon)) := by
  refine ⟨?_, ?_, ?_, ?_, ?_⟩ <;>
    simp [deriveRow, hs, ha, htr, hc, hi, hn, padd, pdiv, pmul, hds, hdc, hdi, hdn]

theorem derive_ratio_formulas_witness :
    (deriveRow (toJRow (fillnaRow (joinRow (dailyMarketing [sampleM]) sampleB)))).roas =
      PVal.fin (0 / (0 + epsilon)) := by
  have h := derive_ratio_formulas
    (toJRow (fillnaRow (joinRow (dailyMarketing [sampleM]) sampleB)))
    0 0 1000 0 0 10 (by rfl) (by rfl) (by rfl) (by rfl) (by rfl) (by rfl)
    (by norm_num [epsilon]) (by norm_num [epsilon]) (by norm_num [epsilon])
    (by norm_num [epsilon])
  exact h.1

/-- Claim C3: once the derivation stage (formulas plus coercion pass) has
run, none of the five derived columns holds an infinity or NaN in any
row: every cell of those columns is finite. -/
theorem derived_columns_finite (t : List JRow) (r : JRow)
    (hr : r ∈ deriveStage t) :
    r.roas.isFinite = true ∧ r.mer.isFinite = true ∧ r.cpc.isFinite = true ∧
    r.ctr.isFinite = true ∧ r.cac.isFinite = true := by
  unfold deriveStage at hr
  obtain ⟨x, _, rfl⟩ := List.mem_map.mp hr
  exact ⟨coerceVal_isFinite _, coerceVal_isFinite _, coerceVal_isFinite _,
    coerceVal_isFinite _, coerceVal_isFinite _⟩

theorem derived_columns_finite_witness :
    (coerceRow (deriveRow (toJRow (fillnaRow (joinRow (dailyMarketing [sampleM]) sampleB))))).roas.isFinite = true := by
  have h := derived_columns_finite
    [toJRow (fillnaRow (joinRow (dailyMarketing [sampleM]) sampleB))]
    (coerceRow (deriveRow (toJRow (fillnaRow (joinRow (dailyMarketing [sampleM]) sampleB)))))
    (by simp [deriveStage])
  exact h.1

/-- The business table of the spec scenario: one row, 2024-01-01 encoded
as day 0, `total_revenue = 1000`, `new_customers = 10`. -/
def scenarioBusiness : List BRow :=
  [{ date := 0, total_revenue := .fin 1000, gross_profit := .fin 0,
     new_customers := .fin 10 }]

/-- The marketing table of the spec scenario: no record at all, so in
particular none on the business date. -/
def scenarioMarketing : List MRow := []

theorem scenario_mer_column :
    (prepare scenarioBusiness scenarioMarketing).map (fun r => r.mer) =
      [PVal.fin (1000 / epsilon)] := by
  have heps : (0 : ℚ) + epsilon ≠ 0 := by norm_num [epsilon]
  have heps2 : epsilon ≠ 0 := by norm_num [epsilon]
  simp [prepare, scenarioBusiness, scenarioMarketing, dailyMarketing, mergeLeft,
    joinStage, fillnaRow, fillnaVal, toJRow, deriveStage, deriveRow, coerceRow,
    coerceVal, padd, pdiv, heps, heps2]

/-- Claim C4 counterexample: in the spec scenario (one business row with
`total_revenue = 1000`, `new_customers = 10`, no marketing record on that
date) the joined row's `mer` is not 0 — the pipeline computes
`1000 / (0 + 1e-9) = 10^12`. -/
theorem scenario_mer_not_zero :
    (prepare scenarioBusiness scenarioMarketing).map (fun r => r.mer) ≠
      [PVal.fin 0] := by
  rw [scenario_mer_column]
  intro h
  simp only [List.cons.injEq, and_true, PVal.fin.injEq] at h
  norm_num [epsilon] at h

/-- Claim C4 amended: in the spec scenario the joined row has
`spend = 0`, `attributed_revenue = 0`, `roas = 0` and `cac = 0`, but
`mer = total_revenue / eps = 10^12`, a huge finite value (the ε guard
turns the zero-spend division into a large number, not 0). -/
theorem scenario_joined_row_values :
    (prepare scenarioBusiness scenarioMarketing).map
        (fun r => (r.spend, r.attributed_revenue, r.roas, r.cac, r.mer)) =
      [(PVal.fin 0, PVal.fin 0, PVal.fin 0, PVal.fin 0,
        PVal.fin (1000 / epsilon))] := by
  have heps : (0 : ℚ) + epsilon ≠ 0 := by norm_num [epsilon]
  have heps2 : epsilon ≠ 0 := by norm_num [epsilon]
  have heps10 : (10 : ℚ) + epsilon ≠ 0 := by norm_num [epsilon]
  simp [prepare, scenarioBusiness, scenarioMarketing, dailyMarketing, mergeLeft,
    joinStage, fillnaRow, fillnaVal, toJRow, deriveStage, deriveRow, coerceRow,
    coerceVal, padd, pdiv, heps, heps2, heps10]

/-- Claim C5 counterexample: normalization does not fold the
`attribute_revenue` synonym — a raw column `Attribute Revenue` is only
lowercased and underscored, and no `attributed_revenue` column appears. -/
theorem attribute_revenue_not_folded :
    "attribute_revenue" ∈ normalizeColumns ["Date", "Attribute Revenue", "Spend"] ∧
    "attributed_revenue" ∉ normalizeColumns ["Date", "Attribute Revenue", "Spend"] := by
  decide

/-- Claim C5 amended: normalization lowercases names and replaces spaces
with underscores, and folds the one recognized synonym `impression` to
`impressions` (when `impressions` is not already present, the singular
form disappears); `attribute_revenue` is left untouched — the normalized
table has an `attributed_revenue` column only if one was already there
after case/space normalization. -/
theorem normalizeColumns_behaviour (cols : List String)
    (himp : "impression" ∈ cols.map normalizeName)
    (hnimp : "impressions" ∉ cols.map normalizeName) :
    "impressions" ∈ normalizeColumns cols ∧
    "impression" ∉ normalizeColumns cols ∧
    ("attributed_revenue" ∈ normalizeColumns cols ↔
      "attributed_revenue" ∈ cols.map normalizeName) := by
  have hcond : "impression" ∈ cols.map normalizeName ∧
      "impressions" ∉ cols.map normalizeName := ⟨himp, hnimp⟩
  refine ⟨?_, ?_, ?_⟩
  · unfold normalizeColumns
    rw [if_pos hcond]
    exact List.mem_map.mpr ⟨"impression", himp, by rfl⟩
  · unfold normalizeColumns
    rw [if_pos hcond]
    intro hmem
    obtain ⟨c, hc, he⟩ := List.mem_map.mp hmem
    by_cases hcc : c = "impression"
    · rw [if_pos hcc] at he
      exact absurd he (by decide)
    · rw [if_neg hcc] at he
      exact hcc he
  · unfold normalizeColumns
    rw [if_pos hcond]
    constructor
    · intro hmem
      obtain ⟨c, hc, he⟩ := List.mem_map.mp hmem
      by_cases hcc : c = "impression"
      · rw [if_pos hcc] at he
        exact absurd he (by decide)
      · rw [if_neg hcc] at he
        rw [← he]
        exact hc
    · intro hmem
      refine List.mem_map.mpr ⟨"attributed_revenue", hmem, ?_⟩
      rw [if_neg (by decide)]

theorem normalizeColumns_behaviour_witness :
    "impressions" ∈ normalizeColumns ["Date", "Impression"] ∧
    "impression" ∉ normalizeColumns ["Date", "Impression"] := by
  have h := normalizeColumns_behaviour ["Date", "Impression"]
    (by decide) (by decide)
  exact ⟨h.1, h.2.1⟩

/-- The numeric value a raw cell contributes to a sum: numbers count as
themselves, empty (NaN) cells are skipped by the pandas sum, i.e. count
as 0. -/
def cellNum : RawCell → ℚ
  | .num q => q
  | _ => 0

theorem isNan_fin (q : ℚ) : (PVal.fin q).isNan = false := rfl

theorem isNan_nan : PVal.nan.isNan = true := rfl

theorem padd_fin (a b : ℚ) : padd (.fin a) (.fin b) = .fin (a + b) := rfl

theorem gsum_parse_aux (l : List RawCell) (a : ℚ) (h : hasText l = false) :
    ((l.map parseCell).filter (fun v => !v.isNan)).foldl padd (.fin a) =
      .fin (a + (l.map cellNum).sum) := by
  induction l generalizing a with
  | nil => simp
  | cons c t ih =>
    have hsplit : hasText t = false := by
      cases c <;> simp [hasText] at h ⊢ <;> exact h
    cases c with
    | num q =>
      simp only [List.map_cons, parseCell, List.filter_cons, isNan_fin,
        Bool.not_false, if_true, List.foldl_cons, padd_fin, cellNum,
        List.sum_cons]
      rw [ih (a + q) hsplit, add_assoc]
    | text s => simp [hasText] at h
    | empty =>
      simp only [List.map_cons, parseCell, List.filter_cons, isNan_nan,
        Bool.not_true, cellNum, List.sum_cons, Bool.false_eq_true, if_false]
      rw [ih a hsplit, zero_add]

theorem gsum_parse (l : List RawCell) (h : hasText l = false) :
    gsum (l.map parseCell) = .fin ((l.map cellNum).sum) := by
  have := gsum_parse_aux l 0 h
  rw [zero_add] at this
  exact this

/-- One raw channel CSV as read by `pd.read_csv`: its row count and the
numeric columns it actually contains, by normalized name with their
cells. -/
structure RawSource where
  nrows : ℕ
  cols : List (String × List RawCell)

/-- Whether a source file has a column of the given name. -/
def hasCol (s : RawSource) (name : String) : Bool :=
  s.cols.any (fun c => c.1 = name)

/-- The column a source contributes to `pd.concat` (app.py line 33):
its own cells when it has the column, else one NaN (empty) cell per row —
concat aligns the frames on the union of their columns and fills the
gaps with NaN. -/
def getCol (s : RawSource) (name : String) : List RawCell :=
  match s.cols.find? (fun c => c.1 = name) with
  | some c => c.2
  | none => List.replicate s.nrows RawCell.empty

/-- The concatenated measure column that
`groupby('date').agg({name: 'sum'})` (app.py lines 33-39, date grouping
elided) reads: when no source file has the column, the concatenated
frame lacks it too and the `agg` call raises KeyError, modelled as an
error. -/
def concatColumn (sources : List RawSource) (name : String) :
    Except Unit (List RawCell) :=
  if sources.any (fun s => hasCol s name) then
    .ok (sources.flatMap (fun s => getCol s name))
  else .error ()

/-- Aggregation of one expected numeric measure over the concatenated
channel files: KeyError when the column exists in no file, TypeError
(via `aggRawColumn`) when it holds a non-numeric token, and the
NaN-skipping sum otherwise. -/
def aggSources (sources : List RawSource) (name : String) : Except Unit PVal :=
  match concatColumn sources name with
  | .error e => .error e
  | .ok cells => aggRawColumn cells

theorem getCol_of_missing (s : RawSource) (name : String)
    (h : hasCol s name = false) :
    getCol s name = List.replicate s.nrows RawCell.empty := by
  unfold hasCol at h
  rw [List.any_eq_false] at h
  unfold getCol
  rw [List.find?_eq_none.mpr h]

theorem replicate_empty_zero (n : ℕ) :
    ((List.replicate n RawCell.empty).map cellNum).sum = 0 ∧
    hasText (List.replicate n RawCell.empty) = false := by
  constructor
  · rw [List.map_replicate]
    simp [cellNum]
  · induction n with
    | zero => rfl
    | succ k ih =>
      rw [List.replicate_succ]
      simp [hasText]

/-- Channel file with a one-row spend column. -/
def srcWithSpend : RawSource := ⟨1, [("spend", [RawCell.num 5])]⟩

/-- Channel file with no spend column (two rows of other measures). -/
def srcNoSpend : RawSource := ⟨2, [("clicks", [RawCell.num 1, RawCell.num 2])]⟩

/-- Channel file whose spend column holds a non-numeric token. -/
def srcTextSpend : RawSource := ⟨1, [("spend", [RawCell.text "abc"])]⟩

/-- Another channel file with no spend column. -/
def srcImpressionsOnly : RawSource :=
  ⟨2, [("impressions", [RawCell.num 1, RawCell.num 2])]⟩

/-- Claim C6 counterexample: two concrete column-level anomalies halt the
load instead of being normalized away — a spend column holding the
non-numeric token `abc` makes the aggregation/derivation raise a
TypeError (the value is not coerced to 0), and a spend column missing
from every channel file makes `agg` raise a KeyError (no all-zero column
is synthesized). -/
theorem ingestion_anomalies_raise :
    aggSources [srcWithSpend, srcTextSpend] "spend" = Except.error () ∧
    aggSources [srcNoSpend, srcImpressionsOnly] "spend" = Except.error () :=
  ⟨rfl, rfl⟩

/-- Claim C6 amended: ingestion tolerates value-level anomalies and
partially missing columns — an empty cell is NaN and contributes zero to
the aggregate, and a numeric column missing from a source file but
present in some other file is synthesized as NaN for the missing file's
rows by concat alignment, which likewise contributes exactly zero, so
the load succeeds.  But a numeric column absent from every channel file
makes the aggregation raise KeyError, and a non-numeric text token in a
numeric column is not coerced to zero: the object-typed column makes the
aggregation/derivation raise TypeError — these column/value anomalies
halt the pipeline, not only file-level load failures. -/
theorem aggregation_error_policy (sources : List RawSource) (name : String) :
    (sources.any (fun s => hasCol s name) = true →
      hasText (sources.flatMap (fun s => getCol s name)) = false →
      aggSources sources name =
        Except.ok (.fin (((sources.flatMap
          (fun s => getCol s name)).map cellNum).sum))) ∧
    (∀ s ∈ sources, hasCol s name = false →
      ((getCol s name).map cellNum).sum = 0 ∧
        hasText (getCol s name) = false) ∧
    (sources.any (fun s => hasCol s name) = false →
      aggSources sources name = Except.error ()) ∧
    (sources.any (fun s => hasCol s name) = true →
      hasText (sources.flatMap (fun s => getCol s name)) = true →
      aggSources sources name = Except.error ()) := by
  refine ⟨?_, ?_, ?_, ?_⟩
  · intro hsome hnotext
    have hcc : concatColumn sources name =
        .ok (sources.flatMap (fun s => getCol s name)) := by
      unfold concatColumn
      rw [if_pos hsome]
    unfold aggSources
    rw [hcc]
    show aggRawColumn (sources.flatMap (fun s => getCol s name)) = _
    unfold aggRawColumn
    rw [if_neg (by rw [hnotext]; exact Bool.false_ne_true),
      gsum_parse _ hnotext]
  · intro s hs hmiss
    rw [getCol_of_missing s name hmiss]
    exact replicate_empty_zero s.nrows
  · intro hnone
    have hcc : concatColumn sources name = .error () := by
      unfold concatColumn
      rw [if_neg (by rw [hnone]; exact Bool.false_ne_true)]
    unfold aggSources
    rw [hcc]
  · intro hsome htext
    have hcc : concatColumn sources name =
        .ok (sources.flatMap (fun s => getCol s name)) := by
      unfold concatColumn
      rw [if_pos hsome]
    unfold aggSources
    rw [hcc]
    show aggRawColumn (sources.flatMap (fun s => getCol s name)) = _
    unfold aggRawColumn
    rw [if_pos htext]

theorem aggregation_error_policy_witness :
    aggSources [srcWithSpend, srcNoSpend] "spend" =
      Except.ok (.fin ((([srcWithSpend, srcNoSpend].flatMap
        (fun s => getCol s "spend")).map cellNum).sum)) ∧
    ((getCol srcNoSpend "spend").map cellNum).sum = 0 := by
  have h := aggregation_error_policy [srcWithSpend, srcNoSpend] "spend"
  exact ⟨h.1 (by rfl) (by rfl),
    (h.2.1 srcNoSpend (by simp) (by rfl)).1⟩

theorem coerceVal_idem (v : PVal) : coerceVal (coerceVal v) = coerceVal v := by
  cases v <;> rfl

theorem coerceVal_fin (q : ℚ) : coerceVal (.fin q) = .fin q := rfl

theorem isFinite_exists (v : PVal) (h : v.isFinite = true) : ∃ q, v = .fin q := by
  cases v with
  | fin q => exact ⟨q, rfl⟩
  | posInf => simp [PVal.isFinite] at h
  | negInf => simp [PVal.isFinite] at h
  | nan => simp [PVal.isFinite] at h

/-- A joined row whose `spend` column holds `+inf` (reachable from a
literal `inf` token in a CSV numeric column); the pre-existing ratio
fields are irrelevant since derivation overwrites them. -/
def infRow : JRow :=
  { date := 0, total_revenue := .fin 0, gross_profit := .fin 0,
    new_customers := .fin 0, spend := .posInf, impressions := .fin 0,
    clicks := .fin 0, attributed_revenue := .fin 1,
    roas := .fin 0, mer := .fin 0, cpc := .fin 0, ctr := .fin 0, cac := .fin 0 }

/-- Claim C7 counterexample: on a joined table whose `spend` is `+inf`,
running the derivation stage twice does not reproduce the first run's
columns — the first run computes `roas = 1/inf = 0` and then coerces
`spend` to 0, so the second run recomputes `roas = 1/(0 + eps) = 10^9`. -/
theorem deriveStage_not_idempotent :
    (deriveStage (deriveStage [infRow])).map (fun r => r.roas) ≠
      (deriveStage [infRow]).map (fun r => r.roas) := by
  have heps : (0 : ℚ) + epsilon ≠ 0 := by norm_num [epsilon]
  have h1 : (deriveStage [infRow]).map (fun r => r.roas) = [PVal.fin 0] := by
    simp [deriveStage, deriveRow, coerceRow, infRow, padd, pdiv, coerceVal]
  have heps2 : epsilon ≠ 0 := by norm_num [epsilon]
  have h2 : (deriveStage (deriveStage [infRow])).map (fun r => r.roas) =
      [PVal.fin (1 / epsilon)] := by
    simp [deriveStage, deriveRow, coerceRow, infRow, padd, pdiv, coerceVal, heps,
      heps2]
  rw [h1, h2]
  intro h
  simp only [List.cons.injEq, and_true, PVal.fin.injEq] at h
  norm_num [epsilon] at h

theorem derive_coerce_row_idem (r : JRow)
    (h1 : r.total_revenue.isFinite = true)
    (h2 : r.new_customers.isFinite = true)
    (h3 : r.spend.isFinite = true)
    (h4 : r.impressions.isFinite = true)
    (h5 : r.clicks.isFinite = true)
    (h6 : r.attributed_revenue.isFinite = true) :
    coerceRow (deriveRow (coerceRow (deriveRow r))) = coerceRow (deriveRow r) := by
  obtain ⟨qtr, etr⟩ := isFinite_exists _ h1
  obtain ⟨qnc, enc⟩ := isFinite_exists _ h2
  obtain ⟨qs, es⟩ := isFinite_exists _ h3
  obtain ⟨qi, ei⟩ := isFinite_exists _ h4
  obtain ⟨qc, ec⟩ := isFinite_exists _ h5
  obtain ⟨qa, ea⟩ := isFinite_exists _ h6
  simp [deriveRow, coerceRow, coerceVal_idem, coerceVal_fin, etr, enc, es, ei,
    ec, ea]

/-- Claim C7 amended: metric derivation is idempotent on every joined
table whose six source columns (total_revenue, new_customers, spend,
impressions, clicks, attributed_revenue) hold only finite values — the ε
term is not compounded and finite cells are not double-corrected.  (On a
table with an infinity in a source column idempotence fails, see the
counterexample.) -/
theorem deriveStage_idempotent_on_finite (t : List JRow)
    (h : ∀ r ∈ t, r.total_revenue.isFinite = true ∧
      r.new_customers.isFinite = true ∧ r.spend.isFinite = true ∧
      r.impressions.isFinite = true ∧ r.clicks.isFinite = true ∧
      r.attributed_revenue.isFinite = true) :
    deriveStage (deriveStage t) = deriveStage t := by
  unfold deriveStage
  simp only [List.map_map]
  apply List.map_congr_left
  intro r hr
  obtain ⟨h1, h2, h3, h4, h5, h6⟩ := h r hr
  show coerceRow (deriveRow (coerceRow (deriveRow r))) = coerceRow (deriveRow r)
  exact derive_coerce_row_idem r h1 h2 h3 h4 h5 h6

/-- A joined row with only finite cells, used to witness idempotence. -/
def finRow : JRow :=
  { date := 1, total_revenue := .fin 500, gross_profit := .fin 100,
    new_customers := .fin 5, spend := .fin 50, impressions := .fin 1000,
    clicks := .fin 40, attributed_revenue := .fin 100,
    roas := .fin 0, mer := .fin 0, cpc := .fin 0, ctr := .fin 0, cac := .fin 0 }

theorem deriveStage_idempotent_on_finite_witness :
    deriveStage (deriveStage [finRow]) = deriveStage [finRow] := by
  refine deriveStage_idempotent_on_finite [finRow] ?_
  intro r hr
  rw [List.mem_singleton] at hr
  subst hr
  exact ⟨rfl, rfl, rfl, rfl, rfl, rfl⟩

/-- Claim C8: for any inclusive date range and allowed platform, state
and tactic lists, the filtered marketing table holds exactly the
marketing rows passing date range and all three memberships, while the
filtered joined table holds exactly the joined rows in the date range,
with no platform/state/tactic restriction. -/
theorem filtering_characterization (sd ed : ℤ) (plats sts tacs : List String)
    (m : List MRow) (t : List JRow) (r : MRow) (j : JRow) :
    (r ∈ filteredMarketing sd ed plats sts tacs m ↔
      r ∈ m ∧ sd ≤ r.date ∧ r.date ≤ ed ∧ r.platform ∈ plats ∧
        r.state ∈ sts ∧ r.tactic ∈ tacs) ∧
    (j ∈ filteredJoined sd ed t ↔ j ∈ t ∧ sd ≤ j.date ∧ j.date ≤ ed) := by
  constructor
  · simp [filteredMarketing, maskMarketing, List.mem_filter, and_assoc]
  · simp [filteredJoined, List.mem_filter, and_assoc]

theorem filtering_characterization_witness :
    sampleM ∈ filteredMarketing 0 10 ["Facebook", "Google"] ["NY"] ["ASC"]
      [sampleM] := by
  refine (filtering_characterization 0 10 ["Facebook", "Google"] ["NY"] ["ASC"]
    [sampleM] [] sampleM finRow).1.mpr ?_
  refine ⟨List.mem_singleton.mpr rfl, by decide, by decide, ?_, ?_, ?_⟩ <;> decide

/-- Claim C9: when the range's start exceeds its end, or the range lies
entirely outside the dates present in a table, filtering that table
returns the empty table (and, being a total function, raises nothing). -/
theorem out_of_range_filtering_empty (sd ed : ℤ) (plats sts tacs : List String)
    (m : List MRow) (t : List JRow)
    (h : ed < sd ∨ ((∀ r ∈ m, r.date < sd ∨ ed < r.date) ∧
      (∀ j ∈ t, j.date < sd ∨ ed < j.date))) :
    filteredMarketing sd ed plats sts tacs m = [] ∧
    filteredJoined sd ed t = [] := by
  constructor
  · refine List.filter_eq_nil_iff.mpr ?_
    intro r hr hmask
    simp only [maskMarketing, Bool.and_eq_true, decide_eq_true_eq] at hmask
    obtain ⟨⟨⟨⟨hsd, hed⟩, _⟩, _⟩, _⟩ := hmask
    cases h with
    | inl hlt => omega
    | inr hdom => rcases hdom.1 r hr with hlow | hhigh <;> omega
  · refine List.filter_eq_nil_iff.mpr ?_
    intro j hj hmask
    simp only [Bool.and_eq_true, decide_eq_true_eq] at hmask
    obtain ⟨hsd, hed⟩ := hmask
    cases h with
    | inl hlt => omega
    | inr hdom => rcases hdom.2 j hj with hlow | hhigh <;> omega

theorem out_of_range_filtering_empty_witness :
    filteredMarketing 10 0 ["Facebook"] ["NY"] ["ASC"] [sampleM] = [] ∧
    filteredJoined 10 0 [finRow] = [] :=
  out_of_range_filtering_empty 10 0 ["Facebook"] ["NY"] ["ASC"] [sampleM]
    [finRow] (Or.inl (by omega))

theorem coerceVal_char (v : PVal) :
    coerceVal v = if v.isFinite then v else .fin 0 := by
  cases v <;> rfl

theorem fillnaVal_char (v : PVal) :
    fillnaVal v = if v.isNan then .fin 0 else v := by
  cases v <;> rfl

theorem coerceVal_of_finite (v : PVal) (h : v.isFinite = true) :
    coerceVal v = v := by
  cases v <;> first | rfl | simp [PVal.isFinite] at h

theorem fillnaVal_of_not_nan (v : PVal) (h : v.isNan = false) :
    fillnaVal v = v := by
  cases v <;> first | rfl | simp [PVal.isNan] at h

/-- Claim C10: the post-join `fillna(0)` and the post-derivation
infinity/NaN coercion are frame-wide: they rewrite the business columns
(total_revenue, gross_profit, new_customers) exactly like any other
column — a non-finite cell becomes 0 under the coercion pass and a NaN
cell becomes 0 under the zero-fill — while a row all of whose cells are
finite (respectively non-missing) passes through unchanged. -/
theorem fill_and_coerce_frame_wide (r : JRow) (b : JRow0) :
    (coerceRow r).total_revenue =
      (if r.total_revenue.isFinite then r.total_revenue else .fin 0) ∧
    (coerceRow r).gross_profit =
      (if r.gross_profit.isFinite then r.gross_profit else .fin 0) ∧
    (coerceRow r).new_customers =
      (if r.new_customers.isFinite then r.new_customers else .fin 0) ∧
    (fillnaRow b).total_revenue =
      (if b.total_revenue.isNan then .fin 0 else b.total_revenue) ∧
    (fillnaRow b).gross_profit =
      (if b.gross_profit.isNan then .fin 0 else b.gross_profit) ∧
    (fillnaRow b).new_customers =
      (if b.new_customers.isNan then .fin 0 else b.new_customers) ∧
    ((r.total_revenue.isFinite = true ∧ r.gross_profit.isFinite = true ∧
      r.new_customers.isFinite = true ∧ r.spend.isFinite = true ∧
      r.impressions.isFinite = true ∧ r.clicks.isFinite = true ∧
      r.attributed_revenue.isFinite = true ∧ r.roas.isFinite = true ∧
      r.mer.isFinite = true ∧ r.cpc.isFinite = true ∧ r.ctr.isFinite = true ∧
      r.cac.isFinite = true) → coerceRow r = r) ∧
    ((b.total_revenue.isNan = false ∧ b.gross_profit.isNan = false ∧
      b.new_customers.isNan = false ∧ b.spend.isNan = false ∧
      b.impressions.isNan = false ∧ b.clicks.isNan = false ∧
      b.attributed_revenue.isNan = false) → fillnaRow b = b) := by
  refine ⟨coerceVal_char _, coerceVal_char _, coerceVal_char _,
    fillnaVal_char _, fillnaVal_char _, fillnaVal_char _, ?_, ?_⟩
  · intro hfin
    obtain ⟨f1, f2, f3, f4, f5, f6, f7, f8, f9, f10, f11, f12⟩ := hfin
    cases r with
    | mk d tr gp nc sp im cl ar ro me cp ct ca =>
      simp only [coerceRow]
      simp_all [coerceVal_of_finite]
  · intro hnan
    obtain ⟨g1, g2, g3, g4, g5, g6, g7⟩ := hnan
    cases b with
    | mk d tr gp nc sp im cl ar =>
      simp only [fillnaRow]
      simp_all [fillnaVal_of_not_nan]

theorem fill_and_coerce_frame_wide_witness :
    (coerceRow { finRow with gross_profit := .posInf }).gross_profit =
      (if (PVal.posInf).isFinite then PVal.posInf else .fin 0) ∧
    coerceRow finRow = finRow := by
  have h1 := fill_and_coerce_frame_wide { finRow with gross_profit := .posInf }
    (fillnaRow (joinRow (dailyMarketing [sampleM]) sampleB))
  have h2 := fill_and_coerce_frame_wide finRow
    (fillnaRow (joinRow (dailyMarketing [sampleM]) sampleB))
  exact ⟨h1.2.1, h2.2.2.2.2.2.2.1
    ⟨rfl, rfl, rfl, rfl, rfl, rfl, rfl, rfl, rfl, rfl, rfl, rfl⟩⟩
